import Mathlib

set_option maxHeartbeats 1000000

/- Verification of the chromecastplay repository: the subtitle converter,
   the HTTP media resources, the CORS request wrapper and the transcoder
   readiness gate, shallowly embedded from the Python sources
   chromecast.py and chromecastplay.py. -/

/- Character classes of the Python regular expressions and of str.strip.
   Python's re classes backslash-d and backslash-s also admit some
   non-ASCII code points; the embedding models the ASCII subset, which is
   what the subtitle documents and every claim exercise. -/

def pyDigit (c : Char) : Bool := '0' ≤ c && c ≤ '9'

def pySpace (c : Char) : Bool :=
  c == ' ' || c == '\t' || c == '\n' || c == '\r' ||
    c == Char.ofNat 11 || c == Char.ofNat 12

/- str.strip() with no argument: drop whitespace at both ends. -/
def pyStrip (s : List Char) : List Char :=
  ((s.dropWhile pySpace).reverse.dropWhile pySpace).reverse

/- chromecast.py, srt2vtt.convert_cue uses
   re.search(pattern, cue, re.DOTALL) with the pattern
     (d+:d+:d+)(?:,(d+))?s*--?>s*(d+:d+:d+)(?:,(d+))?s*(.*)
   (d for backslash-d, s for backslash-s).  At any fixed start position
   the pattern is deterministic: each d+ is greedy and no shorter
   alternative can succeed because the character that must follow a digit
   group (a colon, comma, hyphen or whitespace) is never a digit; the
   optional (?:,(d+))? group can be committed greedily because when it
   matches, the fallback path would have to match s*--?> starting at the
   comma, which always fails; --?> tries the two-hyphen arrow before the
   one-hyphen arrow exactly as the greedy -? does; and the final s*(.*)
   never fails, the DOTALL (.*) taking everything after the greedily
   consumed whitespace.  re.search is the leftmost such match.  The
   functions below implement exactly that. -/

def guardNonempty (l : List Char) : Option (List Char) :=
  if l.isEmpty then none else some l

def expectColon (l : List Char) : Option (List Char) :=
  match l with
  | c :: r => if c = ':' then some r else none
  | [] => none

/- One timestamp group (d+:d+:d+), returning the matched text and the
   remainder. -/
def parseTime (s0 : List Char) : Option (List Char × List Char) :=
  (guardNonempty (s0.takeWhile pyDigit)).bind fun d1 =>
  (expectColon (s0.dropWhile pyDigit)).bind fun r2 =>
  (guardNonempty (r2.takeWhile pyDigit)).bind fun d2 =>
  (expectColon (r2.dropWhile pyDigit)).bind fun r4 =>
  (guardNonempty (r4.takeWhile pyDigit)).bind fun d3 =>
  some (d1 ++ ':' :: d2 ++ ':' :: d3, r4.dropWhile pyDigit)

/- The optional fractional group (?:,(d+))?. -/
def parseFrac (s0 : List Char) : Option (List Char) × List Char :=
  match s0 with
  | c :: r =>
    if c = ',' then
      if (r.takeWhile pyDigit).isEmpty then (none, c :: r)
      else (some (r.takeWhile pyDigit), r.dropWhile pyDigit)
    else (none, c :: r)
  | [] => (none, [])

/- The arrow s*--?> : whitespace, then --> or ->. -/
def parseSep (s0 : List Char) : Option (List Char) :=
  match s0.dropWhile pySpace with
  | c1 :: rest1 =>
    if c1 = '-' then
      match rest1 with
      | c2 :: rest2 =>
        if c2 = '-' then
          match rest2 with
          | c3 :: rest3 => if c3 = '>' then some rest3 else none
          | [] => none
        else if c2 = '>' then some rest2 else none
      | [] => none
    else none
  | [] => none

/- The five capture groups of the pattern. -/
structure CueMatch where
  g1 : List Char
  g2 : Option (List Char)
  g3 : List Char
  g4 : Option (List Char)
  g5 : List Char
deriving DecidableEq, Repr

/- The whole pattern anchored at one start position. -/
def matchAt (s0 : List Char) : Option CueMatch :=
  (parseTime s0).bind fun t1 =>
  (parseSep (parseFrac t1.2).2).bind fun afterSep =>
  (parseTime (afterSep.dropWhile pySpace)).bind fun t2 =>
  some ⟨t1.1, (parseFrac t1.2).1, t2.1,
        (parseFrac t2.2).1, (parseFrac t2.2).2.dropWhile pySpace⟩

/- re.search: the leftmost position at which the pattern matches. -/
def searchCue : List Char → Option CueMatch
  | [] => none
  | c :: rest =>
    match matchAt (c :: rest) with
    | some m => some m
    | none => searchCue rest

/- Python's "m.group(n) or '000'" : None and the empty string both fall
   back to the default. -/
def pyOr (x : Option (List Char)) : List Char :=
  match x with
  | none => ['0', '0', '0']
  | some l => if l.isEmpty then ['0', '0', '0'] else l

/- chromecast.py lines 47-57: format string
   H.F --> H.F newline stripped-text, or the empty string. -/
def convert_cue (cue : List Char) : List Char :=
  match searchCue cue with
  | none => []
  | some m =>
    m.g1 ++ '.' :: pyOr m.g2 ++
      ' ' :: '-' :: '-' :: '>' :: ' ' :: m.g3 ++ '.' :: pyOr m.g4 ++
      '\n' :: pyStrip m.g5

/- Python str.split with separator newline-newline: split at every
   non-overlapping occurrence, left to right, keeping empty pieces. -/
def splitBlocks : List Char → List Char → List (List Char)
  | acc, '\n' :: '\n' :: rest => acc.reverse :: splitBlocks [] rest
  | acc, c :: rest => splitBlocks (c :: acc) rest
  | acc, [] => [acc.reverse]

/- chromecast.py lines 59-62: join WEBVTT and the converted cues with
   blank lines. -/
def srt2vtt (contents : List Char) : List Char :=
  List.intercalate ['\n', '\n']
    ("WEBVTT".toList :: (splitBlocks [] contents).map convert_cue)

/- UTF-8 encoding of one code point (what str.encode does per char). -/
def utf8EncodeChar (c : Char) : List Nat :=
  let n := c.toNat
  if n < 128 then [n]
  else if n < 2048 then [192 + n / 64, 128 + n % 64]
  else if n < 65536 then [224 + n / 4096, 128 + (n / 64) % 64, 128 + n % 64]
  else [240 + n / 262144, 128 + (n / 4096) % 64, 128 + (n / 64) % 64, 128 + n % 64]

def utf8Encode (s : List Char) : List Nat :=
  (s.map utf8EncodeChar).flatten

/- chromecast.py lines 30-35 (read_sub).  Reading and charset-detecting
   the file is I/O; the decoded text is passed in as an argument. -/
def read_sub (filename contents : List Char) : List Nat :=
  if List.isSuffixOf ".vtt".toList filename then utf8Encode contents
  else utf8Encode (srt2vtt contents)

/- HTTP response headers.  Twisted's Headers object is case-insensitive
   in the header name; lookups, replacements and removals compare the
   lowercased names. -/

abbrev Headers := List (List Char × List Char)

def lowerStr (s : List Char) : List Char := s.map Char.toLower

def setHeader (hs : Headers) (name value : List Char) : Headers :=
  hs.filter (fun p => !(lowerStr p.1 == lowerStr name)) ++ [(name, value)]

def removeHeader (hs : Headers) (name : List Char) : Headers :=
  hs.filter (fun p => !(lowerStr p.1 == lowerStr name))

def getHeader (hs : Headers) (name : List Char) : Option (List Char) :=
  (hs.find? (fun p => lowerStr p.1 == lowerStr name)).map (fun p => p.2)

/- CORSRequest.process (both sources): set the cross-origin header before
   any resource runs, so every response starts from these headers. -/
def corsInit : Headers :=
  setHeader [] "Access-Control-Allow-Origin".toList "*".toList

/- The transcoder's stdout pipe: a forward-only byte stream.  Reading
   consumes from the front; an exhausted pipe reads as empty forever. -/
structure PipeState where
  data : List Nat
deriving DecidableEq, Repr

def DEFAULT_MIME : List Char := "video/mp4".toList

/- twisted.web.static.StaticProducer.bufferSize. -/
def producerBufferSize : Nat := 65536

/- NoRangeStaticProducer: repeatedly read up to bufferSize bytes from the
   file object and write them to the request, finishing the response
   normally (no error) when a read returns no bytes.  The fuel argument
   bounds the number of reads; the first component is the byte sequence
   written to the network, in read order. -/
def producerRun : Nat → PipeState → List Nat × PipeState
  | 0, st => ([], st)
  | fuel + 1, st =>
    let chunk := st.data.take producerBufferSize
    if chunk.isEmpty then ([], ⟨st.data.drop producerBufferSize⟩)
    else
      let rec2 := producerRun fuel ⟨st.data.drop producerBufferSize⟩
      (chunk ++ rec2.1, rec2.2)

/- The outcome of ChunkedPipe.render_GET as seen by the client: response
   headers, status code, body bytes, and whether any client-visible error
   was raised (the code has no error path, so no branch sets it). -/
structure PipeRender where
  headers : Headers
  code : Nat
  body : List Nat
  errored : Bool
deriving Repr

/- ChunkedPipe._setContentHeaders: only the content type, when set. -/
def setContentHeadersPipe (typ : List Char) (hs : Headers) : Headers :=
  if typ.isEmpty then hs else setHeader hs "content-type".toList typ

/- chromecastplay.py lines 91-97.  HEAD: content headers only, empty
   body, the pipe untouched.  Otherwise: makeProducer (content headers,
   status OK, a NoRangeStaticProducer over the shared pipe) and start it;
   the producer drains whatever is left in the pipe. -/
def chunkedPipe_render_GET (typ method : List Char) (hs0 : Headers)
    (st : PipeState) : PipeRender × PipeState :=
  if method == "HEAD".toList then
    (⟨setContentHeadersPipe typ hs0, 200, [], false⟩, st)
  else
    (⟨setContentHeadersPipe typ hs0, 200, (producerRun st.data.length st).1, false⟩,
     (producerRun st.data.length st).2)

/- twisted.python.filepath: the File resource caches the stat result in
   statinfo; getsize answers from the cache when one is present and only
   stats the file when the cache is empty; restat re-stats and refills
   the cache.  realSize is the size the filesystem reports at the moment
   of the stat call. -/
structure FileState where
  cachedSize : Option Nat
deriving DecidableEq, Repr

def restat (realSize : Nat) (_f : FileState) : FileState :=
  ⟨some realSize⟩

def filepath_getsize (realSize : Nat) (f : FileState) : Nat × FileState :=
  match f.cachedSize with
  | some n => (n, f)
  | none => (realSize, ⟨some realSize⟩)

/- chromecast.py lines 83-86, GrowableFile.getsize: restat (invalidating
   the cache), then the inherited getsize. -/
def growable_getsize (realSize : Nat) (f : FileState) : Nat × FileState :=
  filepath_getsize realSize (restat realSize f)

/- chromecast.py lines 88-90, GrowableFile._contentRange. -/
def growable_contentRange (offset size : Nat) : List Char :=
  "bytes ".toList ++ Nat.toDigits 10 offset ++
    '-' :: Nat.toDigits 10 (offset + size - 1) ++ '/' :: ['*']

/- The Delivery Server's response header sets, one per mounted resource
   and outcome.  Each starts from corsInit because CORSRequest.process
   runs before the resource; the per-resource operations are the
   setHeader and removeHeader calls of the repository code and of the
   twisted resources it mounts (Data.render sets content-type and
   content-length; File.render_GET sets accept-ranges and, through
   _setContentHeaders, content-type and content-length, plus
   content-range for a range request; ChunkedFile.render_GET then removes
   accept-ranges and content-length; the 404 fallback page sets its html
   content-type).  None of them touches the cross-origin header. -/

def dataRender (typ : List Char) (size : Nat) (hs : Headers) : Headers :=
  setHeader (setHeader hs "content-type".toList typ)
    "content-length".toList (Nat.toDigits 10 size)

def staticFileRender (typ : List Char) (size : Nat) (hs : Headers) : Headers :=
  setHeader
    (setHeader (setHeader hs "accept-ranges".toList "bytes".toList)
      "content-type".toList typ)
    "content-length".toList (Nat.toDigits 10 size)

def staticFileRangeRender (typ : List Char) (first lastb size : Nat)
    (hs : Headers) : Headers :=
  setHeader (staticFileRender typ (lastb + 1 - first) hs)
    "content-range".toList
    ("bytes ".toList ++ Nat.toDigits 10 first ++ '-' :: Nat.toDigits 10 lastb ++
      '/' :: Nat.toDigits 10 size)

def growableRangeRender (typ : List Char) (offset size : Nat)
    (hs : Headers) : Headers :=
  setHeader (staticFileRender typ size hs)
    "content-range".toList (growable_contentRange offset size)

def chunkedFileRender (typ : List Char) (size : Nat) (hs : Headers) : Headers :=
  removeHeader (removeHeader (staticFileRender typ size hs)
    "accept-ranges".toList) "content-length".toList

def notFoundRender (hs : Headers) : Headers :=
  setHeader hs "content-type".toList "text/html; charset=utf-8".toList

/- The responses the server can produce: the subtitle blob, the video in
   its variants (plain file, file with a range request, growable file
   range, chunked file, piped stream on GET and on HEAD) and the 404
   error page for unknown paths. -/
inductive ServedResource where
  | subData (size : Nat)
  | videoStatic (size : Nat)
  | videoStaticRange (first lastb size : Nat)
  | videoGrowableRange (offset size : Nat)
  | videoChunked (size : Nat)
  | videoPipedGet
  | videoPipedHead
  | notFound
deriving DecidableEq, Repr

def responseHeaders : ServedResource → Headers
  | .subData size => dataRender "text/vtt".toList size corsInit
  | .videoStatic size => staticFileRender DEFAULT_MIME size corsInit
  | .videoStaticRange first lastb size =>
      staticFileRangeRender DEFAULT_MIME first lastb size corsInit
  | .videoGrowableRange offset size =>
      growableRangeRender DEFAULT_MIME offset size corsInit
  | .videoChunked size => chunkedFileRender DEFAULT_MIME size corsInit
  | .videoPipedGet =>
      (chunkedPipe_render_GET DEFAULT_MIME "GET".toList corsInit ⟨[]⟩).1.headers
  | .videoPipedHead =>
      (chunkedPipe_render_GET DEFAULT_MIME "HEAD".toList corsInit ⟨[]⟩).1.headers
  | .notFound => notFoundRender corsInit

/- chromecast.py line 27 and lines 107-125: the transcoder readiness
   gate.  The loop observes, once per second, the size of the temporary
   output file and whether the ffmpeg process has exited; obs t is the
   observation of iteration t.  waitIdx returns the iteration at which
   the loop condition
     size < TRANSCODER_BUFSIZE and poll() is None
   first fails; fuel bounds the number of iterations modelled. -/

def TRANSCODER_BUFSIZE : Nat := 60000000

structure TranscoderObs where
  size : Nat
  exited : Bool
deriving DecidableEq, Repr

def readyGate (o : TranscoderObs) : Bool :=
  decide (TRANSCODER_BUFSIZE ≤ o.size) || o.exited

def waitIdx (obs : Nat → TranscoderObs) : Nat → Nat → Option Nat
  | 0, _ => none
  | fuel + 1, t => if readyGate (obs t) then some t else waitIdx obs fuel (t + 1)

def start_transcoder_wait (obs : Nat → TranscoderObs) (fuel : Nat) : Option Nat :=
  waitIdx obs fuel 0

/- Predicates used to state the claims about the subtitle converter. -/

abbrev digitsNE (l : List Char) : Prop := l ≠ [] ∧ ∀ c ∈ l, pyDigit c = true

abbrev spacesOnly (l : List Char) : Prop := ∀ c ∈ l, pySpace c = true

def optDigitsNE : Option (List Char) → Prop
  | none => True
  | some f => f ≠ [] ∧ ∀ c ∈ f, pyDigit c = true

instance optDigitsNE.dec : (x : Option (List Char)) → Decidable (optDigitsNE x) :=
  fun x =>
  match x with
  | none => isTrue trivial
  | some f => inferInstanceAs (Decidable (f ≠ [] ∧ ∀ c ∈ f, pyDigit c = true))

def headNotP (p : Char → Bool) (l : List Char) : Prop :=
  ∀ x, l.head? = some x → p x = false

/- The shape of a timestamp and of the optional fractional part, used to
   describe inputs that match the timing pattern. -/

def timeStr (h m s : List Char) : List Char := h ++ ':' :: m ++ ':' :: s

def fracPart : Option (List Char) → List Char
  | none => []
  | some f => ',' :: f

def fracDigits : Option (List Char) → List Char
  | none => ['0', '0', '0']
  | some f => f

/- A document already in the target caption format (WebVTT syntax, dot
   separated milliseconds). -/
def sampleVttDoc : List Char :=
  "WEBVTT\n\n0:00:01.000 --> 0:00:02.000\nhi".toList

/- A deterministic transcoder observation sequence: the output file is
   empty for two iterations and reaches the threshold at iteration 2. -/
def obsW : Nat → TranscoderObs := fun t => ⟨if 2 ≤ t then 60000000 else 0, false⟩

/- Base list lemmas. -/

theorem takeWhile_all_append (p : Char → Bool) (d r : List Char)
    (hd : ∀ c ∈ d, p c = true) (hr : headNotP p r) :
    (d ++ r).takeWhile p = d := by
  induction d with
  | nil =>
    cases r with
    | nil => rfl
    | cons c t => simp [List.takeWhile_cons, hr c rfl]
  | cons a d ih =>
    simp only [List.cons_append, List.takeWhile_cons, hd a (by simp)]
    simp [ih (fun c hc => hd c (by simp [hc]))]

theorem dropWhile_all_append (p : Char → Bool) (d r : List Char)
    (hd : ∀ c ∈ d, p c = true) (hr : headNotP p r) :
    (d ++ r).dropWhile p = r := by
  induction d with
  | nil =>
    cases r with
    | nil => rfl
    | cons c t => simp [List.dropWhile_cons, hr c rfl]
  | cons a d ih =>
    simp only [List.cons_append, List.dropWhile_cons, hd a (by simp)]
    exact ih (fun c hc => hd c (by simp [hc]))

theorem dropWhile_self_idem (p : Char → Bool) (l : List Char) :
    (l.dropWhile p).dropWhile p = l.dropWhile p := by
  induction l with
  | nil => rfl
  | cons a t ih =>
    by_cases h : p a = true
    · simp [List.dropWhile_cons, h, ih]
    · simp at h; simp [List.dropWhile_cons, h]

theorem headNot_cons (p : Char → Bool) (c : Char) (t : List Char)
    (h : p c = false) : headNotP p (c :: t) := by
  intro x hx
  rw [List.head?_cons] at hx
  cases hx
  exact h

theorem headNot_nil (p : Char → Bool) : headNotP p [] := fun _ hx => nomatch hx

theorem space_not_digit (c : Char) (h : pySpace c = true) : pyDigit c = false := by
  simp [pySpace] at h
  rcases h with ((((h | h) | h) | h) | h) | h <;> subst h <;> decide

theorem digit_not_space (c : Char) (h : pyDigit c = true) : pySpace c = false := by
  simp [pyDigit] at h
  obtain ⟨h1, _h2⟩ := h
  have hne : ∀ d : Char, ('0' ≤ d → False) → (c == d) = false := by
    intro d hd
    simp only [beq_eq_false_iff_ne, ne_eq]
    rintro rfl
    exact hd h1
  simp only [pySpace, hne ' ' (by decide), hne '\t' (by decide),
    hne '\n' (by decide), hne '\r' (by decide), hne (Char.ofNat 11) (by decide),
    hne (Char.ofNat 12) (by decide), Bool.or_false, Bool.false_or]

theorem guardNonempty_some (l : List Char) (h : l ≠ []) :
    guardNonempty l = some l := by
  cases l with
  | nil => exact absurd rfl h
  | cons a t => rfl

/- Structured inputs drive the pattern parsers to the expected result. -/

theorem parseTime_structured (h m s tail : List Char)
    (hh : digitsNE h) (hm : digitsNE m) (hs : digitsNE s)
    (ht : headNotP pyDigit tail) :
    parseTime (timeStr h m s ++ tail) = some (timeStr h m s, tail) := by
  have hsplit : timeStr h m s ++ tail = h ++ (':' :: (m ++ ':' :: (s ++ tail))) := by
    simp [timeStr]
  have e1 : (h ++ (':' :: (m ++ ':' :: (s ++ tail)))).takeWhile pyDigit = h :=
    takeWhile_all_append _ _ _ hh.2 (headNot_cons _ _ _ (by decide))
  have e2 : (h ++ (':' :: (m ++ ':' :: (s ++ tail)))).dropWhile pyDigit
      = ':' :: (m ++ ':' :: (s ++ tail)) :=
    dropWhile_all_append _ _ _ hh.2 (headNot_cons _ _ _ (by decide))
  have e3 : (m ++ ':' :: (s ++ tail)).takeWhile pyDigit = m :=
    takeWhile_all_append _ _ _ hm.2 (headNot_cons _ _ _ (by decide))
  have e4 : (m ++ ':' :: (s ++ tail)).dropWhile pyDigit = ':' :: (s ++ tail) :=
    dropWhile_all_append _ _ _ hm.2 (headNot_cons _ _ _ (by decide))
  have e5 : (s ++ tail).takeWhile pyDigit = s := takeWhile_all_append _ _ _ hs.2 ht
  have e6 : (s ++ tail).dropWhile pyDigit = tail := dropWhile_all_append _ _ _ hs.2 ht
  rw [hsplit]
  simp [parseTime, e1, e2, e3, e4, e5, e6,
    guardNonempty_some h hh.1, guardNonempty_some m hm.1, guardNonempty_some s hs.1,
    expectColon, timeStr]

theorem parseFrac_none (l : List Char) (h : ∀ x, l.head? = some x → x ≠ ',') :
    parseFrac l = (none, l) := by
  cases l with
  | nil => rfl
  | cons c r => simp [parseFrac, h c rfl]

theorem parseFrac_some (f tail : List Char) (hf : digitsNE f)
    (ht : headNotP pyDigit tail) :
    parseFrac (',' :: (f ++ tail)) = (some f, tail) := by
  have e1 : (f ++ tail).takeWhile pyDigit = f := takeWhile_all_append _ _ _ hf.2 ht
  have e2 : (f ++ tail).dropWhile pyDigit = tail := dropWhile_all_append _ _ _ hf.2 ht
  simp [parseFrac, e1, e2, List.isEmpty_iff, hf.1]

theorem parseSep_structured (ws tail sep : List Char)
    (hws : spacesOnly ws) (hsep : sep = ['-', '-', '>'] ∨ sep = ['-', '>']) :
    parseSep (ws ++ (sep ++ tail)) = some tail := by
  rcases hsep with rfl | rfl
  · have e : (ws ++ ('-' :: '-' :: '>' :: tail)).dropWhile pySpace
        = '-' :: '-' :: '>' :: tail :=
      dropWhile_all_append _ _ _ hws (headNot_cons _ _ _ (by decide))
    simp [parseSep, e]
  · have e : (ws ++ ('-' :: '>' :: tail)).dropWhile pySpace = '-' :: '>' :: tail :=
      dropWhile_all_append _ _ _ hws (headNot_cons _ _ _ (by decide))
    simp [parseSep, e]

theorem timeStr_head_not_space (h m s X : List Char) (hh : digitsNE h) :
    headNotP pySpace (timeStr h m s ++ X) := by
  obtain ⟨a, t, rfl⟩ := List.exists_cons_of_ne_nil hh.1
  have ha : pyDigit a = true := hh.2 a (by simp)
  simp only [timeStr, List.cons_append, List.append_assoc]
  exact headNot_cons _ _ _ (digit_not_space a ha)

theorem timeStr_append_ne_nil (h m s X : List Char) (hh : digitsNE h) :
    timeStr h m s ++ X ≠ [] := by
  obtain ⟨a, t, rfl⟩ := List.exists_cons_of_ne_nil hh.1
  simp [timeStr]

/- The pattern, applied at the start of a structured timing line,
   captures exactly the six syntactic pieces. -/
theorem matchAt_canonical
    (h1 m1 s1 h2 m2 s2 ws1 ws2 rest sep : List Char)
    (f1 f2 : Option (List Char))
    (hh1 : digitsNE h1) (hm1 : digitsNE m1) (hs1 : digitsNE s1)
    (hh2 : digitsNE h2) (hm2 : digitsNE m2) (hs2 : digitsNE s2)
    (hf1 : optDigitsNE f1) (hf2 : optDigitsNE f2)
    (hws1 : spacesOnly ws1) (hws2 : spacesOnly ws2)
    (hsep : sep = ['-', '-', '>'] ∨ sep = ['-', '>'])
    (hrest : rest = [] ∨ rest.head? = some '\n') :
    matchAt (timeStr h1 m1 s1 ++ (fracPart f1 ++ (ws1 ++ (sep ++ (ws2 ++
        (timeStr h2 m2 s2 ++ (fracPart f2 ++ rest))))))) =
      some ⟨timeStr h1 m1 s1, f1, timeStr h2 m2 s2, f2, rest.dropWhile pySpace⟩ := by
  have hrestD : headNotP pyDigit rest := by
    rcases hrest with rfl | hh
    · exact headNot_nil _
    · intro x hx
      rw [hh] at hx
      cases hx
      decide
  have hrestC : ∀ x, rest.head? = some x → x ≠ ',' := by
    rcases hrest with rfl | hh
    · intro x hx; cases hx
    · intro x hx
      rw [hh] at hx
      cases hx
      decide
  obtain ⟨sep', hsH⟩ : ∃ s', sep = '-' :: s' := by
    rcases hsep with rfl | rfl
    · exact ⟨_, rfl⟩
    · exact ⟨_, rfl⟩
  have hA1 : headNotP pyDigit
      (ws1 ++ (sep ++ (ws2 ++ (timeStr h2 m2 s2 ++ (fracPart f2 ++ rest))))) := by
    cases ws1 with
    | nil =>
      subst hsH
      simp only [List.nil_append, List.cons_append]
      exact headNot_cons _ _ _ (by decide)
    | cons w ws =>
      simp only [List.cons_append]
      exact headNot_cons _ _ _ (space_not_digit w (hws1 w (by simp)))
  have hA1c : ∀ x,
      (ws1 ++ (sep ++ (ws2 ++ (timeStr h2 m2 s2 ++ (fracPart f2 ++ rest))))).head?
        = some x → x ≠ ',' := by
    cases ws1 with
    | nil =>
      subst hsH
      intro x hx
      simp only [List.nil_append, List.cons_append, List.head?_cons] at hx
      cases hx
      decide
    | cons w ws =>
      intro x hx
      simp only [List.cons_append, List.head?_cons] at hx
      cases hx
      have hw := hws1 w (by simp)
      rintro rfl
      exact absurd hw (by decide)
  have eA : parseFrac (fracPart f1 ++
      (ws1 ++ (sep ++ (ws2 ++ (timeStr h2 m2 s2 ++ (fracPart f2 ++ rest)))))) =
      (f1, ws1 ++ (sep ++ (ws2 ++ (timeStr h2 m2 s2 ++ (fracPart f2 ++ rest))))) := by
    cases f1 with
    | none => simpa [fracPart] using parseFrac_none _ hA1c
    | some f => simpa [fracPart] using parseFrac_some f _ hf1 hA1
  have eSep : parseSep
      (ws1 ++ (sep ++ (ws2 ++ (timeStr h2 m2 s2 ++ (fracPart f2 ++ rest))))) =
      some (ws2 ++ (timeStr h2 m2 s2 ++ (fracPart f2 ++ rest))) :=
    parseSep_structured _ _ _ hws1 hsep
  have eWs2 : (ws2 ++ (timeStr h2 m2 s2 ++ (fracPart f2 ++ rest))).dropWhile pySpace
      = timeStr h2 m2 s2 ++ (fracPart f2 ++ rest) :=
    dropWhile_all_append _ _ _ hws2 (timeStr_head_not_space _ _ _ _ hh2)
  have hD : headNotP pyDigit (fracPart f2 ++ rest) := by
    cases f2 with
    | none => simpa [fracPart] using hrestD
    | some f =>
      simp only [fracPart, List.cons_append]
      exact headNot_cons _ _ _ (by decide)
  have eT2 : parseTime (timeStr h2 m2 s2 ++ (fracPart f2 ++ rest))
      = some (timeStr h2 m2 s2, fracPart f2 ++ rest) :=
    parseTime_structured _ _ _ _ hh2 hm2 hs2 hD
  have eF2 : parseFrac (fracPart f2 ++ rest) = (f2, rest) := by
    cases f2 with
    | none => simpa [fracPart] using parseFrac_none _ hrestC
    | some f => simpa [fracPart] using parseFrac_some f _ hf2 hrestD
  have hA : headNotP pyDigit (fracPart f1 ++
      (ws1 ++ (sep ++ (ws2 ++ (timeStr h2 m2 s2 ++ (fracPart f2 ++ rest)))))) := by
    cases f1 with
    | none => simpa [fracPart] using hA1
    | some f =>
      simp only [fracPart, List.cons_append]
      exact headNot_cons _ _ _ (by decide)
  have eT1 : parseTime (timeStr h1 m1 s1 ++ (fracPart f1 ++
      (ws1 ++ (sep ++ (ws2 ++ (timeStr h2 m2 s2 ++ (fracPart f2 ++ rest)))))))
      = some (timeStr h1 m1 s1, fracPart f1 ++
        (ws1 ++ (sep ++ (ws2 ++ (timeStr h2 m2 s2 ++ (fracPart f2 ++ rest)))))) :=
    parseTime_structured _ _ _ _ hh1 hm1 hs1 hA
  simp only [matchAt, eT1, Option.some_bind, eA, eSep, eWs2, eT2, eF2]

theorem searchCue_of_matchAt (l : List Char) (m : CueMatch) (hne : l ≠ [])
    (h : matchAt l = some m) : searchCue l = some m := by
  cases l with
  | nil => exact absurd rfl hne
  | cons c t => simp [searchCue, h]

/- An all-digit index line before the timing line (the usual SRT cue
   shape) gives the pattern no earlier match, so re.search skips it. -/
theorem searchCue_skip_index (idx tail : List Char) (m : CueMatch)
    (hidx : ∀ c ∈ idx, pyDigit c = true)
    (h : searchCue tail = some m) :
    searchCue (idx ++ '\n' :: tail) = some m := by
  induction idx with
  | nil =>
    have hnl : pyDigit '\n' = false := by decide
    have hm : matchAt ('\n' :: tail) = none := by
      simp [matchAt, parseTime, List.takeWhile_cons, hnl, guardNonempty]
    simp [searchCue, hm, h]
  | cons a idx ih =>
    have hTW : (a :: (idx ++ '\n' :: tail)).takeWhile pyDigit = a :: idx := by
      have := takeWhile_all_append pyDigit (a :: idx) ('\n' :: tail) hidx
        (headNot_cons _ _ _ (by decide))
      simpa using this
    have hDW : (a :: (idx ++ '\n' :: tail)).dropWhile pyDigit = '\n' :: tail := by
      have := dropWhile_all_append pyDigit (a :: idx) ('\n' :: tail) hidx
        (headNot_cons _ _ _ (by decide))
      simpa using this
    have hm : matchAt (a :: (idx ++ '\n' :: tail)) = none := by
      simp [matchAt, parseTime, hTW, hDW, guardNonempty, expectColon]
    simp only [List.cons_append]
    simp only [searchCue, hm]
    exact ih (fun c hc => hidx c (by simp [hc]))

theorem pyOr_eq_fracDigits (f : Option (List Char)) (hf : optDigitsNE f) :
    pyOr f = fracDigits f := by
  cases f with
  | none => rfl
  | some l => simp [pyOr, fracDigits, List.isEmpty_iff, hf.1]

theorem pyStrip_dropWhile (l : List Char) :
    pyStrip (l.dropWhile pySpace) = pyStrip l := by
  simp [pyStrip, dropWhile_self_idem]

/- The general statement about convert_cue on a cue whose timing line
   matches the pattern, optionally preceded by an all-digit index line. -/
theorem convert_cue_canonical
    (pre h1 m1 s1 h2 m2 s2 ws1 ws2 rest sep : List Char)
    (f1 f2 : Option (List Char))
    (hpre : pre = [] ∨ ∃ idx, (∀ c ∈ idx, pyDigit c = true) ∧ pre = idx ++ ['\n'])
    (hh1 : digitsNE h1) (hm1 : digitsNE m1) (hs1 : digitsNE s1)
    (hh2 : digitsNE h2) (hm2 : digitsNE m2) (hs2 : digitsNE s2)
    (hf1 : optDigitsNE f1) (hf2 : optDigitsNE f2)
    (hws1 : spacesOnly ws1) (hws2 : spacesOnly ws2)
    (hsep : sep = ['-', '-', '>'] ∨ sep = ['-', '>'])
    (hrest : rest = [] ∨ rest.head? = some '\n') :
    convert_cue (pre ++ (timeStr h1 m1 s1 ++ (fracPart f1 ++ (ws1 ++ (sep ++ (ws2 ++
        (timeStr h2 m2 s2 ++ (fracPart f2 ++ rest)))))))) =
      timeStr h1 m1 s1 ++ '.' :: fracDigits f1 ++
        ' ' :: '-' :: '-' :: '>' :: ' ' :: timeStr h2 m2 s2 ++ '.' :: fracDigits f2 ++
        '\n' :: pyStrip rest := by
  have hM := matchAt_canonical h1 m1 s1 h2 m2 s2 ws1 ws2 rest sep f1 f2
    hh1 hm1 hs1 hh2 hm2 hs2 hf1 hf2 hws1 hws2 hsep hrest
  have hne : timeStr h1 m1 s1 ++ (fracPart f1 ++ (ws1 ++ (sep ++ (ws2 ++
      (timeStr h2 m2 s2 ++ (fracPart f2 ++ rest)))))) ≠ [] :=
    timeStr_append_ne_nil _ _ _ _ hh1
  have hS : searchCue (pre ++ (timeStr h1 m1 s1 ++ (fracPart f1 ++ (ws1 ++ (sep ++ (ws2 ++
      (timeStr h2 m2 s2 ++ (fracPart f2 ++ rest)))))))) =
      some ⟨timeStr h1 m1 s1, f1, timeStr h2 m2 s2, f2, rest.dropWhile pySpace⟩ := by
    rcases hpre with rfl | ⟨idx, hidx, rfl⟩
    · simpa using searchCue_of_matchAt _ _ hne hM
    · have htail := searchCue_of_matchAt _ _ hne hM
      have := searchCue_skip_index idx _ _ hidx htail
      simpa using this
  simp only [convert_cue, hS]
  simp [pyOr_eq_fracDigits f1 hf1, pyOr_eq_fracDigits f2 hf2, pyStrip_dropWhile]

/- Header table lemmas: find? over a filtered prefix plus an appended
   entry. -/

theorem find?_filterNot_none {α : Type} (B : α → Bool) (l : List α) :
    (l.filter (fun p => !(B p))).find? B = none := by
  induction l with
  | nil => rfl
  | cons a t ih =>
    by_cases h : B a = true
    · simp [List.filter_cons, h, ih]
    · simp at h
      simp [List.filter_cons, h, List.find?_cons, ih]

theorem find?_filterNot_other {α : Type} (A B : α → Bool)
    (hAB : ∀ p, A p = true → B p = false) (l : List α) :
    (l.filter (fun p => !(A p))).find? B = l.find? B := by
  induction l with
  | nil => rfl
  | cons a t ih =>
    by_cases h : A a = true
    · simp [List.filter_cons, h, ih, List.find?_cons, hAB a h]
    · simp at h
      simp [List.filter_cons, h, List.find?_cons, ih]

theorem getHeader_setHeader_self (hs : Headers) (n v : List Char) :
    getHeader (setHeader hs n v) n = some v := by
  simp only [getHeader, setHeader]
  rw [List.find?_append, find?_filterNot_none]
  simp [List.find?_cons]

theorem getHeader_setHeader_ne (hs : Headers) (n v q : List Char)
    (h : lowerStr n ≠ lowerStr q) :
    getHeader (setHeader hs n v) q = getHeader hs q := by
  have hAB : ∀ p : List Char × List Char,
      (lowerStr p.1 == lowerStr n) = true → (lowerStr p.1 == lowerStr q) = false := by
    intro p hp
    simp only [beq_iff_eq] at hp
    simp only [beq_eq_false_iff_ne, ne_eq, hp]
    exact h
  simp only [getHeader, setHeader]
  rw [List.find?_append, find?_filterNot_other _ _ hAB]
  have hlast : List.find? (fun p => lowerStr p.1 == lowerStr q) [(n, v)] = none := by
    simp [List.find?_cons, h]
  rw [hlast]
  simp

theorem getHeader_removeHeader_ne (hs : Headers) (n q : List Char)
    (h : lowerStr n ≠ lowerStr q) :
    getHeader (removeHeader hs n) q = getHeader hs q := by
  have hAB : ∀ p : List Char × List Char,
      (lowerStr p.1 == lowerStr n) = true → (lowerStr p.1 == lowerStr q) = false := by
    intro p hp
    simp only [beq_iff_eq] at hp
    simp only [beq_eq_false_iff_ne, ne_eq, hp]
    exact h
  simp only [getHeader, removeHeader]
  rw [find?_filterNot_other _ _ hAB]

/- The producer loop delivers the whole remaining stream, in order, when
   the fuel covers the stream length. -/
theorem producerRun_complete : ∀ (fuel : Nat) (st : PipeState),
    st.data.length ≤ fuel → producerRun fuel st = (st.data, ⟨[]⟩) := by
  intro fuel
  induction fuel with
  | zero =>
    intro st h
    have hnil : st.data = [] := List.eq_nil_of_length_eq_zero (Nat.le_zero.mp h)
    cases st
    simp_all [producerRun]
  | succ fuel ih =>
    intro st h
    cases st with
    | mk data =>
      cases data with
      | nil => simp [producerRun]
      | cons b bs =>
        have htake : (b :: bs).take producerBufferSize = b :: bs.take 65535 := rfl
        have hdrop : (b :: bs).drop producerBufferSize = bs.drop 65535 := rfl
        have hlen : (List.drop 65535 bs).length ≤ fuel := by
          simp only [List.length_drop]
          simp only [List.length_cons] at h
          omega
        have hrec := ih ⟨bs.drop 65535⟩ hlen
        simp only [producerRun, htake, hdrop]
        simp [hrec]

/- The transcoder wait loop: when it stops at iteration t, the gate holds
   there and at no earlier iteration. -/
theorem waitIdx_spec (obs : Nat → TranscoderObs) :
    ∀ (fuel start t : Nat), waitIdx obs fuel start = some t →
      start ≤ t ∧ readyGate (obs t) = true ∧
        ∀ u, start ≤ u → u < t → readyGate (obs u) = false := by
  intro fuel
  induction fuel with
  | zero => intro start t h; cases h
  | succ fuel ih =>
    intro start t h
    by_cases hg : readyGate (obs start) = true
    · simp only [waitIdx, hg, if_true, Option.some.injEq] at h
      subst h
      exact ⟨Nat.le_refl _, hg,
        fun u h1 h2 => absurd (Nat.lt_of_le_of_lt h1 h2) (Nat.lt_irrefl _)⟩
    · simp only [Bool.not_eq_true] at hg
      simp only [waitIdx, hg, if_false, Bool.false_eq_true] at h
      obtain ⟨h1, h2, h3⟩ := ih (start + 1) t h
      refine ⟨by omega, h2, ?_⟩
      intro u hu1 hu2
      by_cases hu : u = start
      · subst hu; exact hg
      · exact h3 u (by omega) hu2

theorem pyStrip_cons_space (c : Char) (l : List Char) (hcs : pySpace c = true) :
    pyStrip (c :: l) = pyStrip l := by
  simp [pyStrip, List.dropWhile_cons, hcs]

/-- Claim C1: every subtitle cue whose timing line matches the pattern
H:MM:SS[,fff] --> H:MM:SS[,fff] (separator --> or ->, any surrounding
whitespace, optionally preceded by an all-digit index line) is converted
by convert_cue to a timing line H:MM:SS.fff --> H:MM:SS.fff in which the
hour, minute, second and fractional digits are preserved exactly, and a
missing fractional component on either timestamp is replaced by 000. -/
theorem srt2vtt_convert_cue_timing
    (pre h1 m1 s1 h2 m2 s2 ws1 ws2 rest sep : List Char)
    (f1 f2 : Option (List Char))
    (hpre : pre = [] ∨ ∃ idx, (∀ c ∈ idx, pyDigit c = true) ∧ pre = idx ++ ['\n'])
    (hh1 : digitsNE h1) (hm1 : digitsNE m1) (hs1 : digitsNE s1)
    (hh2 : digitsNE h2) (hm2 : digitsNE m2) (hs2 : digitsNE s2)
    (hf1 : optDigitsNE f1) (hf2 : optDigitsNE f2)
    (hws1 : spacesOnly ws1) (hws2 : spacesOnly ws2)
    (hsep : sep = ['-', '-', '>'] ∨ sep = ['-', '>'])
    (hrest : rest = [] ∨ rest.head? = some '\n') :
    convert_cue (pre ++ (timeStr h1 m1 s1 ++ (fracPart f1 ++ (ws1 ++ (sep ++ (ws2 ++
        (timeStr h2 m2 s2 ++ (fracPart f2 ++ rest)))))))) =
      timeStr h1 m1 s1 ++ '.' :: fracDigits f1 ++
        ' ' :: '-' :: '-' :: '>' :: ' ' :: timeStr h2 m2 s2 ++ '.' :: fracDigits f2 ++
        '\n' :: pyStrip rest :=
  convert_cue_canonical pre h1 m1 s1 h2 m2 s2 ws1 ws2 rest sep f1 f2 hpre
    hh1 hm1 hs1 hh2 hm2 hs2 hf1 hf2 hws1 hws2 hsep hrest

/-- Witness for C1 at the concrete SRT cue
1 newline 0:00:01,500 --> 0:00:02 newline hi. -/
theorem srt2vtt_convert_cue_timing_witness :
    convert_cue (['1', '\n'] ++ (timeStr ['0'] ['0', '0'] ['0', '1'] ++
        (fracPart (some ['5', '0', '0']) ++ ([' '] ++ (['-', '-', '>'] ++ ([' '] ++
        (timeStr ['0'] ['0', '0'] ['0', '2'] ++ (fracPart none ++ ['\n', 'h', 'i']))))))))
      = timeStr ['0'] ['0', '0'] ['0', '1'] ++ '.' :: fracDigits (some ['5', '0', '0']) ++
        ' ' :: '-' :: '-' :: '>' :: ' ' :: timeStr ['0'] ['0', '0'] ['0', '2'] ++
        '.' :: fracDigits none ++ '\n' :: pyStrip ['\n', 'h', 'i'] :=
  srt2vtt_convert_cue_timing ['1', '\n'] ['0'] ['0', '0'] ['0', '1'] ['0'] ['0', '0']
    ['0', '2'] [' '] [' '] ['\n', 'h', 'i'] ['-', '-', '>'] (some ['5', '0', '0']) none
    (Or.inr ⟨['1'], by decide, rfl⟩) (by decide) (by decide) (by decide) (by decide)
    (by decide) (by decide) (by decide) (by decide) (by decide) (by decide)
    (Or.inl rfl) (Or.inr rfl)

/-- Claim C9 counterexample: the cue text after the timing line is not
always kept unchanged — the code strips leading and trailing whitespace
from it (group(5).strip() plus the greedy whitespace consumed before the
capture), so the text " hi " comes out as "hi". -/
theorem convert_cue_text_unchanged_cex :
    convert_cue ("1:2:3 --> 4:5:6\n hi ".toList) =
        "1:2:3.000 --> 4:5:6.000\nhi".toList ∧
      convert_cue ("1:2:3 --> 4:5:6\n hi ".toList) ≠
        "1:2:3.000 --> 4:5:6.000\n hi ".toList := by
  constructor <;> decide

/-- Claim C9 (amended): for every cue whose timing line matches the
conversion pattern, the cue text following the timing line is kept
unchanged in the converted output except that leading and trailing
whitespace is stripped. -/
theorem convert_cue_text_stripped
    (h1 m1 s1 f1 h2 m2 s2 f2 text : List Char)
    (hh1 : digitsNE h1) (hm1 : digitsNE m1) (hs1 : digitsNE s1)
    (hh2 : digitsNE h2) (hm2 : digitsNE m2) (hs2 : digitsNE s2)
    (hf1 : digitsNE f1) (hf2 : digitsNE f2) :
    convert_cue (timeStr h1 m1 s1 ++ (fracPart (some f1) ++ ([' '] ++ (['-', '-', '>'] ++
        ([' '] ++ (timeStr h2 m2 s2 ++ (fracPart (some f2) ++ '\n' :: text))))))) =
      timeStr h1 m1 s1 ++ '.' :: f1 ++
        ' ' :: '-' :: '-' :: '>' :: ' ' :: timeStr h2 m2 s2 ++ '.' :: f2 ++
        '\n' :: pyStrip text := by
  have h := convert_cue_canonical [] h1 m1 s1 h2 m2 s2 [' '] [' '] ('\n' :: text)
    ['-', '-', '>'] (some f1) (some f2) (Or.inl rfl) hh1 hm1 hs1 hh2 hm2 hs2 hf1 hf2
    (by decide) (by decide) (Or.inl rfl) (Or.inr rfl)
  rw [pyStrip_cons_space '\n' text (by decide)] at h
  simpa [fracDigits] using h

/-- Witness for the amended C9 at a concrete cue with text padded by
spaces on both sides. -/
theorem convert_cue_text_stripped_witness :
    convert_cue (timeStr ['1'] ['2'] ['3'] ++ (fracPart (some ['4']) ++ ([' '] ++
        (['-', '-', '>'] ++ ([' '] ++ (timeStr ['5'] ['6'] ['7'] ++
        (fracPart (some ['8']) ++ '\n' :: [' ', 'x', ' '])))))))
      = timeStr ['1'] ['2'] ['3'] ++ '.' :: ['4'] ++
        ' ' :: '-' :: '-' :: '>' :: ' ' :: timeStr ['5'] ['6'] ['7'] ++ '.' :: ['8'] ++
        '\n' :: pyStrip [' ', 'x', ' '] :=
  convert_cue_text_stripped ['1'] ['2'] ['3'] ['4'] ['5'] ['6'] ['7'] ['8']
    [' ', 'x', ' '] (by decide) (by decide) (by decide) (by decide) (by decide)
    (by decide) (by decide) (by decide)

/-- Claim C10: a blank-line-delimited block whose timing line does not
match the pattern converts to the empty string (no error is possible),
and that block contributes only an empty string to the joined output
document. -/
theorem srt2vtt_nonmatching_block (contents cue : List Char)
    (hmem : cue ∈ splitBlocks [] contents)
    (hno : searchCue cue = none) :
    convert_cue cue = [] ∧
      [] ∈ (splitBlocks [] contents).map convert_cue ∧
      srt2vtt contents = List.intercalate ['\n', '\n']
        ("WEBVTT".toList :: (splitBlocks [] contents).map convert_cue) := by
  have h1 : convert_cue cue = [] := by simp [convert_cue, hno]
  refine ⟨h1, ?_, rfl⟩
  have h2 := List.mem_map_of_mem convert_cue hmem
  rwa [h1] at h2

/-- Claim C8 counterexample: read_sub decides by filename extension, not
by content.  A document already in the target caption format supplied
under a .srt name is not passed through: its dot-separated timestamps do
not match the comma pattern, both blocks are dropped, and the output is
just the signature line and blank lines. -/
theorem read_sub_format_detection_cex :
    read_sub "a.srt".toList sampleVttDoc ≠ utf8Encode sampleVttDoc ∧
      read_sub "a.srt".toList sampleVttDoc = utf8Encode "WEBVTT\n\n\n\n".toList := by
  constructor <;> decide

/-- Claim C8 (amended): for every subtitle input whose filename ends in
.vtt — the code's criterion for input already in the target caption
format — read_sub passes the document through with its text content
unchanged, re-encoded as UTF-8 bytes, applying no timing conversion. -/
theorem read_sub_vtt_passthrough (filename contents : List Char)
    (h : List.isSuffixOf ".vtt".toList filename = true) :
    read_sub filename contents = utf8Encode contents := by
  unfold read_sub
  rw [if_pos h]

/-- Witness for the amended C8 on a .vtt filename. -/
theorem read_sub_vtt_passthrough_witness :
    read_sub "a.vtt".toList "WEBVTT\n\nx".toList = utf8Encode "WEBVTT\n\nx".toList :=
  read_sub_vtt_passthrough "a.vtt".toList "WEBVTT\n\nx".toList (by decide)

/-- Claim C3: GrowableFile.getsize re-probes the underlying file
immediately before use and never reuses a size cached by a prior request:
from any cached state f, a query returns the current on-disk size, so
when the backing file grows from n1 to n2 between two queries the second
returns the new, larger size n2. -/
theorem growable_getsize_reprobes (f : FileState) (n1 n2 : Nat) (_h : n1 < n2) :
    (growable_getsize n1 f).1 = n1 ∧
      (growable_getsize n2 (growable_getsize n1 f).2).1 = n2 := by
  constructor <;> rfl

/-- Witness for C3 with a stale cache of 999 and a file growing from 10
to 20 bytes. -/
theorem growable_getsize_reprobes_witness :
    (growable_getsize 10 ⟨some 999⟩).1 = 10 ∧
      (growable_getsize 20 (growable_getsize 10 ⟨some 999⟩).2).1 = 20 :=
  growable_getsize_reprobes ⟨some 999⟩ 10 20 (by decide)

/-- Claim C7: when the start_transcoder wait loop returns at iteration t,
the temporary output file has accumulated at least TRANSCODER_BUFSIZE
bytes or the transcoding process has exited, and at no earlier iteration
did either condition hold (the loop does not return before one of them
becomes true). -/
theorem start_transcoder_ready_gate (obs : Nat → TranscoderObs) (fuel t : Nat)
    (h : start_transcoder_wait obs fuel = some t) :
    (TRANSCODER_BUFSIZE ≤ (obs t).size ∨ (obs t).exited = true) ∧
      ∀ u, u < t → ¬TRANSCODER_BUFSIZE ≤ (obs u).size ∧ (obs u).exited = false := by
  obtain ⟨_h1, h2, h3⟩ := waitIdx_spec obs fuel 0 t h
  constructor
  · simpa [readyGate] using h2
  · intro u hu
    have hg := h3 u (Nat.zero_le u) hu
    simpa [readyGate] using hg

/-- Witness for C7: with obsW the loop returns at iteration 2, where the
size threshold holds. -/
theorem start_transcoder_ready_gate_witness :
    TRANSCODER_BUFSIZE ≤ (obsW 2).size ∨ (obsW 2).exited = true :=
  (start_transcoder_ready_gate obsW 5 2 (by decide)).1

/-- Claim C2 counterexample: after a GET has consumed the piped stream, a
second GET does not fail fast with a client-visible stream-already-
consumed error.  render_GET just builds another producer over the same
exhausted pipe, which reads end of stream at once and finishes the
response normally: no error, empty body, status 200. -/
theorem chunkedPipe_second_get_silent_cex :
    ((chunkedPipe_render_GET DEFAULT_MIME "GET".toList corsInit
        (chunkedPipe_render_GET DEFAULT_MIME "GET".toList corsInit ⟨[1, 2, 3]⟩).2).1.errored
      = false) ∧
    ((chunkedPipe_render_GET DEFAULT_MIME "GET".toList corsInit
        (chunkedPipe_render_GET DEFAULT_MIME "GET".toList corsInit ⟨[1, 2, 3]⟩).2).1.body
      = []) ∧
    ((chunkedPipe_render_GET DEFAULT_MIME "GET".toList corsInit
        (chunkedPipe_render_GET DEFAULT_MIME "GET".toList corsInit ⟨[1, 2, 3]⟩).2).1.code
      = 200) := by
  refine ⟨?_, ?_, ?_⟩ <;> decide

/-- Claim C2 (amended): only the first GET receives the piped stream's
bytes — it completes with all produced bytes in order — while a GET
issued after the stream has been consumed silently completes with an
empty body and no client-visible error, rather than failing fast. -/
theorem chunkedPipe_single_reader (typ : List Char) (d : List Nat) :
    (chunkedPipe_render_GET typ "GET".toList corsInit ⟨d⟩).1.body = d ∧
      (chunkedPipe_render_GET typ "GET".toList corsInit
        (chunkedPipe_render_GET typ "GET".toList corsInit ⟨d⟩).2).1.body = [] ∧
      (chunkedPipe_render_GET typ "GET".toList corsInit
        (chunkedPipe_render_GET typ "GET".toList corsInit ⟨d⟩).2).1.errored = false := by
  have hGET : (("GET".toList : List Char) == "HEAD".toList) = false := by decide
  have h1 := producerRun_complete (PipeState.mk d).data.length ⟨d⟩ (Nat.le_refl _)
  refine ⟨?_, ?_, ?_⟩
  · simp [chunkedPipe_render_GET, hGET, h1]
  · simp [chunkedPipe_render_GET, hGET, h1, producerRun]
  · simp [chunkedPipe_render_GET, hGET, h1, producerRun]

/-- Claim C6: a HEAD request to the piped media resource returns headers
only — a zero-byte body with the content headers — and leaves the
underlying source stream unchanged: no bytes are read or consumed. -/
theorem chunkedPipe_head_no_consume (typ : List Char) (hs0 : Headers) (st : PipeState) :
    (chunkedPipe_render_GET typ "HEAD".toList hs0 st).1.body = [] ∧
      (chunkedPipe_render_GET typ "HEAD".toList hs0 st).2 = st ∧
      (chunkedPipe_render_GET typ "HEAD".toList hs0 st).1.headers
        = setContentHeadersPipe typ hs0 := by
  refine ⟨?_, ?_, ?_⟩ <;> rfl

theorem getHeader_pipe_content_none (typ q : List Char)
    (h1 : lowerStr "Access-Control-Allow-Origin".toList ≠ lowerStr q)
    (h2 : lowerStr "content-type".toList ≠ lowerStr q) :
    getHeader (setContentHeadersPipe typ corsInit) q = none := by
  by_cases ht : typ.isEmpty
  · simp only [setContentHeadersPipe, ht, if_true]
    unfold corsInit
    rw [getHeader_setHeader_ne _ _ _ _ h1]
    rfl
  · simp only [setContentHeadersPipe, ht, if_false, Bool.false_eq_true]
    rw [getHeader_setHeader_ne _ _ _ _ h2]
    unfold corsInit
    rw [getHeader_setHeader_ne _ _ _ _ h1]
    rfl

/-- Claim C5: a response from the piped media resource never contains an
Accept-Ranges header and never a Content-Length header, for every GET or
HEAD request: on top of the CORS-initialised headers its only content
header operation is the content type. -/
theorem chunkedPipe_no_range_headers (typ method : List Char) (st : PipeState)
    (_h : method = "GET".toList ∨ method = "HEAD".toList) :
    getHeader (chunkedPipe_render_GET typ method corsInit st).1.headers
        "accept-ranges".toList = none ∧
      getHeader (chunkedPipe_render_GET typ method corsInit st).1.headers
        "content-length".toList = none := by
  have hH : (chunkedPipe_render_GET typ method corsInit st).1.headers
      = setContentHeadersPipe typ corsInit := by
    unfold chunkedPipe_render_GET
    split <;> rfl
  rw [hH]
  exact ⟨getHeader_pipe_content_none _ _ (by decide) (by decide),
    getHeader_pipe_content_none _ _ (by decide) (by decide)⟩

/-- Witness for C5 at a concrete GET over an empty pipe. -/
theorem chunkedPipe_no_range_headers_witness :
    getHeader (chunkedPipe_render_GET DEFAULT_MIME "GET".toList corsInit ⟨[]⟩).1.headers
        "accept-ranges".toList = none ∧
      getHeader (chunkedPipe_render_GET DEFAULT_MIME "GET".toList corsInit ⟨[]⟩).1.headers
        "content-length".toList = none :=
  chunkedPipe_no_range_headers DEFAULT_MIME "GET".toList ⟨[]⟩ (Or.inl rfl)

/-- Claim C4 counterexample: no response carries a header literally named
Access-Allow-Origin; the header the code sets is
Access-Control-Allow-Origin.  The subtitle response, for one, has no
Access-Allow-Origin header at all. -/
theorem cors_header_name_cex :
    getHeader (responseHeaders (.subData 0)) "Access-Allow-Origin".toList = none ∧
      getHeader (responseHeaders (.subData 0)) "Access-Control-Allow-Origin".toList
        = some "*".toList := by
  constructor <;> decide

/-- Claim C4 (amended): every response the Delivery Server produces — for
any mounted path, success or error — carries the permissive cross-origin
header Access-Control-Allow-Origin: * set by CORSRequest.process before
the resource runs; no later header operation of any resource touches
it. -/
theorem cors_header_on_every_response (r : ServedResource) :
    getHeader (responseHeaders r) "Access-Control-Allow-Origin".toList
      = some "*".toList := by
  have hbase : getHeader corsInit "Access-Control-Allow-Origin".toList
      = some "*".toList := by
    unfold corsInit
    exact getHeader_setHeader_self _ _ _
  cases r with
  | subData size =>
    simp only [responseHeaders, dataRender]
    rw [getHeader_setHeader_ne _ _ _ _ (by decide),
        getHeader_setHeader_ne _ _ _ _ (by decide)]
    exact hbase
  | videoStatic size =>
    simp only [responseHeaders, staticFileRender]
    rw [getHeader_setHeader_ne _ _ _ _ (by decide),
        getHeader_setHeader_ne _ _ _ _ (by decide),
        getHeader_setHeader_ne _ _ _ _ (by decide)]
    exact hbase
  | videoStaticRange first lastb size =>
    simp only [responseHeaders, staticFileRangeRender, staticFileRender]
    rw [getHeader_setHeader_ne _ _ _ _ (by decide),
        getHeader_setHeader_ne _ _ _ _ (by decide),
        getHeader_setHeader_ne _ _ _ _ (by decide),
        getHeader_setHeader_ne _ _ _ _ (by decide)]
    exact hbase
  | videoGrowableRange offset size =>
    simp only [responseHeaders, growableRangeRender, staticFileRender]
    rw [getHeader_setHeader_ne _ _ _ _ (by decide),
        getHeader_setHeader_ne _ _ _ _ (by decide),
        getHeader_setHeader_ne _ _ _ _ (by decide),
        getHeader_setHeader_ne _ _ _ _ (by decide)]
    exact hbase
  | videoChunked size =>
    simp only [responseHeaders, chunkedFileRender, staticFileRender]
    rw [getHeader_removeHeader_ne _ _ _ (by decide),
        getHeader_removeHeader_ne _ _ _ (by decide),
        getHeader_setHeader_ne _ _ _ _ (by decide),
        getHeader_setHeader_ne _ _ _ _ (by decide),
        getHeader_setHeader_ne _ _ _ _ (by decide)]
    exact hbase
  | videoPipedGet => decide
  | videoPipedHead => decide
  | notFound => decide

/-- Witness for C10 on a document whose first block has no timing line. -/
theorem srt2vtt_nonmatching_block_witness :
    ("hello".toList ∈ splitBlocks [] "hello\n\n1:2:3 --> 4:5:6\nhi".toList) ∧
      (convert_cue "hello".toList = [] ∧
        [] ∈ (splitBlocks [] "hello\n\n1:2:3 --> 4:5:6\nhi".toList).map convert_cue ∧
        srt2vtt "hello\n\n1:2:3 --> 4:5:6\nhi".toList = List.intercalate ['\n', '\n']
          ("WEBVTT".toList ::
            (splitBlocks [] "hello\n\n1:2:3 --> 4:5:6\nhi".toList).map convert_cue)) :=
  ⟨by decide, srt2vtt_nonmatching_block _ _ (by decide) (by decide)⟩
